import Mathlib

/-!
Verification of the Avellaneda-Stoikov market-making engine in
`Market_Making/Avellaneda-Stoikov/av_binance_live.py`.

The Python code is shallowly embedded over exact rationals:

* Python floats become `ℚ` (exact arithmetic; the float-specific
  representation error is outside the model, while the decimal rounding
  step of the code is modelled exactly by `roundDec`).
* A Python dict `price -> size` becomes an association list
  `List (ℚ × ℚ)`.  Dict keys are unique, so removing a key is modelled
  by filtering out every binding of that price, and assignment by
  replacing the binding.  `max(d.keys())` is modelled by a fold over
  the key list (`maxKeyAux`), which is only reached under the same
  non-emptiness guard as in the source.
* The sentinel `float('inf')` used for a suppressed ask is modelled by
  `Option ℚ` with `none` standing for plus infinity; a finite ask
  `a` is `some a`.  The bid sentinel is the literal `0`, as in the
  source.
* The transcendental constant `np.log(1 + gamma / k) / gamma` appearing
  in both spread formulas is passed as an explicit parameter `L`; the
  lemma `logTerm_default_bounds` brackets its value for the
  configuration `gamma = 0.1, k = 1.5` used by the spec scenarios.
* `time.time()` is abstracted by passing `elapsedDays` explicitly;
  `remaining_time = max(0.001, T - elapsed_days)` is kept verbatim.
-/

namespace AvBinanceLive

/-! ## OrderBook (source lines 23-68) -/

/-- One side of the book: an association list of (price, size). -/
abbrev BookSide := List (ℚ × ℚ)

structure OrderBook where
  bids : BookSide
  asks : BookSide

/-- Dict lookup: the size stored at price `p`, if any. -/
def lookupLevel : BookSide → ℚ → Option ℚ
  | [], _ => none
  | e :: rest, p => if e.1 = p then some e.2 else lookupLevel rest p

/-- Dict key removal (`d.pop(p, None)`): drop every binding of `p`. -/
def eraseLevel : BookSide → ℚ → BookSide
  | [], _ => []
  | e :: rest, p => if e.1 = p then eraseLevel rest p else e :: eraseLevel rest p

/-- Dict assignment (`d[p] = s`): bind `p` to `s`, dropping old bindings. -/
def setLevel (m : BookSide) (p s : ℚ) : BookSide :=
  eraseLevel m p ++ [(p, s)]

/-- One iteration of the update loop (source lines 33-38 / 41-46):
`if size > 0: d[price] = size else: d.pop(price, None)`. -/
def levelStep (m : BookSide) (e : ℚ × ℚ) : BookSide :=
  if 0 < e.2 then setLevel m e.1 e.2 else eraseLevel m e.1

/-- `OrderBook.update` (source lines 30-48): fold the bid levels into the
bid side and the ask levels into the ask side. -/
def updateBook (b : OrderBook) (bids asks : List (ℚ × ℚ)) : OrderBook :=
  { bids := bids.foldl levelStep b.bids
    asks := asks.foldl levelStep b.asks }

/-- Fold computing the running maximum of the keys, seeded with `acc`. -/
def maxKeyAux (acc : ℚ) : BookSide → ℚ
  | [] => acc
  | e :: rest => maxKeyAux (max acc e.1) rest

/-- Fold computing the running minimum of the keys, seeded with `acc`. -/
def minKeyAux (acc : ℚ) : BookSide → ℚ
  | [] => acc
  | e :: rest => minKeyAux (min acc e.1) rest

/-- `max(self.bids.keys())`; only used under a non-emptiness guard. -/
def bestBidPrice : BookSide → ℚ
  | [] => 0
  | e :: rest => maxKeyAux e.1 rest

/-- `min(self.asks.keys())`; only used under a non-emptiness guard. -/
def bestAskPrice : BookSide → ℚ
  | [] => 0
  | e :: rest => minKeyAux e.1 rest

/-- `OrderBook.get_mid_price` (source lines 50-58). -/
def getMidPrice (b : OrderBook) : ℚ :=
  if b.bids = [] ∨ b.asks = [] then 0
  else (bestBidPrice b.bids + bestAskPrice b.asks) / 2

/-- `OrderBook.get_best_bid_ask` (source lines 60-68). -/
def getBestBidAsk (b : OrderBook) : ℚ × ℚ :=
  if b.bids = [] ∨ b.asks = [] then (0, 0)
  else (bestBidPrice b.bids, bestAskPrice b.asks)

/-! ## Strategy parameters (source lines 71-96) -/

structure MMParams where
  sigma : ℚ
  gamma : ℚ
  k : ℚ
  c : ℚ
  T : ℚ
  max_inventory : ℚ
  order_size : ℚ
  min_spread_pct : ℚ

/-! ## Avellaneda-Stoikov spread formulas (source lines 114-122)

`L` stands for the configuration constant `np.log(1 + gamma / k) / gamma`. -/

/-- `optimal_bid_spread` (source lines 114-117). -/
def optimalBidSpread (p : MMParams) (L inventory remaining_time sigma : ℚ) : ℚ :=
  (2 * inventory + 1) * p.gamma * sigma ^ 2 * remaining_time / 2 + L

/-- `optimal_ask_spread` (source lines 119-122). -/
def optimalAskSpread (p : MMParams) (L inventory remaining_time sigma : ℚ) : ℚ :=
  (1 - 2 * inventory) * p.gamma * sigma ^ 2 * remaining_time / 2 + L

/-! ## Inventory constraints (source lines 124-144) -/

/-- `apply_inventory_constraints` (source lines 124-144).  The source
re-reads the mid price from the order book, so the book is passed in.
The ask side returns `none` for the `float('inf')` sentinel. -/
def applyInventoryConstraints (p : MMParams) (inventory : ℚ) (book : OrderBook)
    (bid_price ask_price : ℚ) : ℚ × Option ℚ :=
  let mid_price := getMidPrice book
  let bid : ℚ :=
    if inventory ≥ p.max_inventory * (8/10) then 0
    else if inventory ≥ p.max_inventory * (1/2) then
      mid_price - (mid_price - bid_price) / ((p.max_inventory - inventory) / p.max_inventory)
    else bid_price
  let ask : Option ℚ :=
    if inventory ≤ -p.max_inventory * (8/10) then none
    else if inventory ≤ -p.max_inventory * (1/2) then
      some (mid_price + (ask_price - mid_price) / ((p.max_inventory + inventory) / p.max_inventory))
    else some ask_price
  (bid, ask)

/-! ## Decimal rounding (source lines 176-188)

Python `round(x, d)` rounds half to even; on rationals the scaled value
`x * 10 ^ d` is rounded to the nearest integer, ties to the even one. -/

/-- Nearest integer, ties to even (the rounding mode of Python `round`). -/
def roundHalfEven (q : ℚ) : ℤ :=
  let n := ⌊q⌋
  if q - n < 1/2 then n
  else if 1/2 < q - n then n + 1
  else if n % 2 = 0 then n else n + 1

/-- `round(x, d)` on rationals. -/
def roundDec (x : ℚ) (d : ℕ) : ℚ :=
  (roundHalfEven (x * 10 ^ d) : ℚ) / 10 ^ d

/-- Precision selection (source lines 177-183), written as the same
sequence of overriding assignments. -/
def decimalsFor (mid_price : ℚ) : ℕ :=
  let d := 2
  let d := if mid_price < 100 then 3 else d
  let d := if mid_price < 10 then 4 else d
  if mid_price < 1 then 6 else d

/-! ## Quote computation (source lines 146-190) -/

/-- Minimum-spread floor (source lines 169-174).  The bid is a plain
rational, hence always below `float('inf')`; the ask is finite exactly
when it is `some`. -/
def applyMinSpreadFloor (min_spread mid_price bid_price : ℚ) :
    Option ℚ → ℚ × Option ℚ
  | none => (bid_price, none)
  | some a =>
      if 0 < bid_price ∧ 0 < a then
        if a - bid_price < min_spread then
          (mid_price - min_spread / 2, some (mid_price + min_spread / 2))
        else (bid_price, some a)
      else (bid_price, some a)

/-- Precision rounding (source lines 185-188): the bid is rounded only
when positive, the ask only when finite. -/
def roundQuotes (d : ℕ) (bid_price : ℚ) (ask_price : Option ℚ) : ℚ × Option ℚ :=
  (if 0 < bid_price then roundDec bid_price d else bid_price,
   ask_price.map (fun a => roundDec a d))

/-- `calculate_optimal_quotes` (source lines 146-190), with the wall
clock abstracted into `elapsedDays`. -/
def calculateOptimalQuotes (p : MMParams) (L inventory elapsedDays : ℚ)
    (book : OrderBook) : ℚ × Option ℚ :=
  let remaining_time := max (1/1000) (p.T - elapsedDays)
  let mid_price := getMidPrice book
  if mid_price = 0 then (0, some 0)
  else
    let bid_spread := optimalBidSpread p L inventory remaining_time p.sigma
    let ask_spread := optimalAskSpread p L inventory remaining_time p.sigma
    let r1 := applyInventoryConstraints p inventory book
      (mid_price - bid_spread) (mid_price + ask_spread)
    let r2 := applyMinSpreadFloor (mid_price * p.min_spread_pct) mid_price r1.1 r1.2
    roundQuotes (decimalsFor mid_price) r2.1 r2.2

/-! ## Position ledger (source lines 192-239) -/

def buySide : String := "buy"

def sellSide : String := "sell"

/-- The trade record appended by `record_trade` (source lines 217-226);
the wall-clock timestamp and the maker/taker tag are omitted. -/
structure TradeRecord where
  side : String
  price : ℚ
  size : ℚ
  mid_price : ℚ
  inventory_after : ℚ
  cash_after : ℚ

structure LedgerState where
  inventory : ℚ
  cash : ℚ
  trading_history : List TradeRecord

/-- `record_trade` (source lines 212-239): the record is appended first,
with the fields named `inventory_after` and `cash_after` read from the
current state, and only then are inventory and cash updated (`buy`:
`inventory += size; cash -= price * size`; any other side is treated as
a sell: `inventory -= size; cash += price * size`). -/
def recordTrade (s : LedgerState) (mid_price : ℚ) (side : String)
    (price size : ℚ) : LedgerState :=
  let rec0 : TradeRecord :=
    { side := side, price := price, size := size, mid_price := mid_price
      inventory_after := s.inventory, cash_after := s.cash }
  let s1 : LedgerState := { s with trading_history := s.trading_history ++ [rec0] }
  if side = buySide then
    { s1 with inventory := s1.inventory + size, cash := s1.cash - price * size }
  else
    { s1 with inventory := s1.inventory - size, cash := s1.cash + price * size }

/-- Mark-to-market value (source line 194 of `update_pnl_and_metrics`). -/
def markToMarket (s : LedgerState) (mid_price : ℚ) : ℚ :=
  s.cash + s.inventory * mid_price

/-! ## Controller construction (source lines 71-112 and 242-280)

`AvellanedaStoikovMM.__init__` and `LiveMarketMaker.__init__` only
assign fields; neither performs any validation of the parameters.
`LiveMarketMaker.__init__` sets `self.running = True` unconditionally
(source line 267); `running` gates every processing loop of the class. -/

/-- `AvellanedaStoikovMM.__init__`: the ledger part of the state. -/
def mkAvellanedaStoikov (_p : MMParams) (initial_cash initial_inventory : ℚ) :
    LedgerState :=
  { inventory := initial_inventory, cash := initial_cash, trading_history := [] }

structure LiveMarketMaker where
  params : MMParams
  marketMaker : LedgerState
  running : Bool

/-- `LiveMarketMaker.__init__` (source lines 242-280), reduced to the
state it establishes: the strategy object and the `running` flag. -/
def liveMarketMakerInit (p : MMParams) (initial_cash initial_inventory : ℚ) :
    LiveMarketMaker :=
  { params := p
    marketMaker := mkAvellanedaStoikov p initial_cash initial_inventory
    running := true }

/-! ## Helper lemmas: rounding bounds -/

lemma roundHalfEven_le (q : ℚ) : (roundHalfEven q : ℚ) ≤ q + 1/2 := by
  have h1 : ((⌊q⌋ : ℤ) : ℚ) ≤ q := Int.floor_le q
  have h2 : q < ⌊q⌋ + 1 := Int.lt_floor_add_one q
  simp only [roundHalfEven]
  split_ifs with ha hb hc <;> push_cast <;> linarith

lemma le_roundHalfEven (q : ℚ) : q - 1/2 ≤ (roundHalfEven q : ℚ) := by
  have h1 : ((⌊q⌋ : ℤ) : ℚ) ≤ q := Int.floor_le q
  have h2 : q < ⌊q⌋ + 1 := Int.lt_floor_add_one q
  simp only [roundHalfEven]
  split_ifs with ha hb hc <;> push_cast <;> linarith

lemma roundDec_le (x : ℚ) (d : ℕ) : roundDec x d ≤ x + 1/2 / 10 ^ d := by
  have hp : (0 : ℚ) < 10 ^ d := by positivity
  have h := roundHalfEven_le (x * 10 ^ d)
  rw [roundDec, div_le_iff hp]
  calc (roundHalfEven (x * 10 ^ d) : ℚ) ≤ x * 10 ^ d + 1/2 := h
    _ = (x + 1/2 / 10 ^ d) * 10 ^ d := by field_simp; ring

lemma le_roundDec (x : ℚ) (d : ℕ) : x - 1/2 / 10 ^ d ≤ roundDec x d := by
  have hp : (0 : ℚ) < 10 ^ d := by positivity
  have h := le_roundHalfEven (x * 10 ^ d)
  rw [roundDec, le_div_iff hp]
  calc (x - 1/2 / 10 ^ d) * 10 ^ d = x * 10 ^ d - 1/2 := by field_simp; ring
    _ ≤ (roundHalfEven (x * 10 ^ d) : ℚ) := h

/-- The two raw spreads always sum to `gamma * sigma ^ 2 * t + 2 * L`:
the inventory terms cancel. -/
lemma spread_sum (p : MMParams) (L inv t s : ℚ) :
    optimalBidSpread p L inv t s + optimalAskSpread p L inv t s =
      p.gamma * s ^ 2 * t + 2 * L := by
  unfold optimalBidSpread optimalAskSpread; ring

/-- The value of the transcendental constant `np.log(1 + gamma / k) / gamma`
for the default configuration `gamma = 0.1`, `k = 1.5` lies between
`5/8` and `2/3` (its value is about `0.6454`). -/
lemma logTerm_default_bounds :
    (5/8 : ℝ) ≤ Real.log (1 + (1/10) / (3/2)) / (1/10) ∧
      Real.log (1 + (1/10) / (3/2)) / (1/10) ≤ 2/3 := by
  have he : (1 + (1/10) / (3/2) : ℝ) = 16/15 := by norm_num
  have h1 : Real.log ((16:ℝ)/15) ≤ 16/15 - 1 :=
    Real.log_le_sub_one_of_pos (by norm_num)
  have h2 : Real.log ((15:ℝ)/16) ≤ 15/16 - 1 :=
    Real.log_le_sub_one_of_pos (by norm_num)
  have h3 : Real.log ((15:ℝ)/16) = -Real.log ((16:ℝ)/15) := by
    rw [show ((15:ℝ)/16) = ((16:ℝ)/15)⁻¹ by norm_num, Real.log_inv]
  rw [he]
  constructor <;> [rw [le_div_iff (by norm_num : (0:ℝ) < 1/10)];
    rw [div_le_iff (by norm_num : (0:ℝ) < 1/10)]] <;> linarith

/-! ## Concrete fixtures used by the claim theorems -/

/-- Fresh ledger with `cash = 10000`, `inventory = 0`. -/
def ledger0 : LedgerState :=
  { inventory := 0, cash := 10000, trading_history := [] }

/-- Claim C1: the theorem evaluates `record_trade` at the failing input
(ledger `inventory = 0`, `cash = 10000`, fill `buy 0.01 @ 100`): the
appended record carries `inventory_after = 0` and `cash_after = 10000`,
the PRE-fill values, while the post-fill state is `inventory = 0.01`,
`cash = 9999`.  The source appends the record before applying the
updates, so the fields named `inventory_after`/`cash_after` do not hold
the post-fill snapshots the claim (and their names) describe. -/
theorem spec2_C1 :
    (recordTrade ledger0 100 buySide 100 (1/100)).trading_history =
      [{ side := buySide, price := 100, size := 1/100, mid_price := 100,
         inventory_after := 0, cash_after := 10000 }] ∧
    (recordTrade ledger0 100 buySide 100 (1/100)).inventory = 1/100 ∧
    (recordTrade ledger0 100 buySide 100 (1/100)).cash = 9999 ∧
    (0 : ℚ) ≠ 1/100 ∧ (10000 : ℚ) ≠ 9999 := by
  refine ⟨?_, ?_, ?_, by norm_num, by norm_num⟩ <;>
    norm_num [recordTrade, ledger0]

/-- Claim C6: a buy fill adds `size` to inventory and subtracts
`price * size` from cash, a sell fill does the opposite, mark-to-market
is `cash + inventory * mid`, and the concrete scenario
`[buy 0.01 @ 100, sell 0.01 @ 101]` from `cash = 10000, inventory = 0`
ends with `cash = 10000.01`, `inventory = 0` and mark-to-market
`10000.01` at every mid price. -/
theorem spec2_C6 :
    (∀ (s : LedgerState) (mid price size : ℚ),
      (recordTrade s mid buySide price size).inventory = s.inventory + size ∧
      (recordTrade s mid buySide price size).cash = s.cash - price * size ∧
      (recordTrade s mid sellSide price size).inventory = s.inventory - size ∧
      (recordTrade s mid sellSide price size).cash = s.cash + price * size) ∧
    (∀ (s : LedgerState) (mid : ℚ),
      markToMarket s mid = s.cash + s.inventory * mid) ∧
    (∀ m1 m2 : ℚ,
      (recordTrade (recordTrade ledger0 m1 buySide 100 (1/100)) m2 sellSide 101 (1/100)).cash
        = 10000 + 1/100 ∧
      (recordTrade (recordTrade ledger0 m1 buySide 100 (1/100)) m2 sellSide 101 (1/100)).inventory
        = 0) ∧
    (∀ m1 m2 mid : ℚ,
      markToMarket
        (recordTrade (recordTrade ledger0 m1 buySide 100 (1/100)) m2 sellSide 101 (1/100)) mid
        = 10000 + 1/100) := by
  have hside : ¬(sellSide = buySide) := by simp [sellSide, buySide]
  refine ⟨fun s mid price size => ?_, fun s mid => rfl, fun m1 m2 => ?_, fun m1 m2 mid => ?_⟩
  · refine ⟨?_, ?_, ?_, ?_⟩ <;> simp [recordTrade, hside]
  · constructor <;> norm_num [recordTrade, ledger0, hside]
  · norm_num [recordTrade, markToMarket, ledger0, hside]

/-- Claim C7: for any fixed configuration with positive `gamma`, `k`,
`sigma` and `remaining_time`, the bid spread is strictly increasing and
the ask spread strictly decreasing in the inventory. -/
theorem spec2_C7 (p : MMParams) (L t s q1 q2 : ℚ)
    (hgamma : 0 < p.gamma) (hk : 0 < p.k) (hs : 0 < s) (ht : 0 < t)
    (hq : q1 < q2) :
    optimalBidSpread p L q1 t s < optimalBidSpread p L q2 t s ∧
      optimalAskSpread p L q2 t s < optimalAskSpread p L q1 t s := by
  have hss : 0 < s ^ 2 := by positivity
  have h0 : 0 < q2 - q1 := sub_pos.2 hq
  have key : 0 < (q2 - q1) * p.gamma * s ^ 2 * t :=
    mul_pos (mul_pos (mul_pos h0 hgamma) hss) ht
  unfold optimalBidSpread optimalAskSpread
  constructor <;> nlinarith [key]

/-- The default configuration of the source (sigma 0.3, gamma 0.1,
k 1.5, c 1, T 1, max inventory 100, order size 0.01, minimum spread
percentage 0.001). -/
def pDefault : MMParams :=
  { sigma := 3/10, gamma := 1/10, k := 3/2, c := 1, T := 1,
    max_inventory := 100, order_size := 1/100, min_spread_pct := 1/1000 }

/-- Witness for C7 at the default configuration, inventories 0 and 1. -/
theorem spec2_C7_witness :
    optimalBidSpread pDefault (13/20) 0 1 (3/10) <
      optimalBidSpread pDefault (13/20) 1 1 (3/10) :=
  (spec2_C7 pDefault (13/20) 1 (3/10) 0 1 (by norm_num [pDefault])
    (by norm_num [pDefault]) (by norm_num) (by norm_num) (by norm_num)).1

/-- Parameter set with a non-positive volatility, used to exhibit that
construction performs no validation. -/
def pInvalid : MMParams :=
  { sigma := -1, gamma := 1/10, k := 3/2, c := 1, T := 1,
    max_inventory := 100, order_size := 1/100, min_spread_pct := 1/1000 }

/-- Counterexample to claim C8: a controller constructed with
`sigma = -1` is accepted, and its `running` flag (the gate of every
processing loop) is `true` — construction neither fails nor keeps the
controller out of the active state. -/
theorem spec2_C8_cex :
    pInvalid.sigma ≤ 0 ∧
      (liveMarketMakerInit pInvalid 10000 0).running = true :=
  ⟨by norm_num [pInvalid], rfl⟩

/-- Claim C8 as amended: the constructors perform no parameter
validation; for every parameter set (including non-positive `sigma`,
`k` or `T`) construction succeeds and the controller starts with
`running = true`. -/
theorem spec2_C8 (p : MMParams) (initial_cash initial_inventory : ℚ) :
    (liveMarketMakerInit p initial_cash initial_inventory).running = true :=
  rfl

/-! ## Stage lemmas for the quote pipeline -/

lemma aic_fst (p : MMParams) (inv : ℚ) (book : OrderBook) (bid ask : ℚ) :
    (applyInventoryConstraints p inv book bid ask).1 =
      if p.max_inventory * (8/10) ≤ inv then 0
      else if p.max_inventory * (1/2) ≤ inv then
        getMidPrice book -
          (getMidPrice book - bid) / ((p.max_inventory - inv) / p.max_inventory)
      else bid := rfl

lemma aic_snd (p : MMParams) (inv : ℚ) (book : OrderBook) (bid ask : ℚ) :
    (applyInventoryConstraints p inv book bid ask).2 =
      if inv ≤ -p.max_inventory * (8/10) then none
      else if inv ≤ -p.max_inventory * (1/2) then
        some (getMidPrice book +
          (ask - getMidPrice book) / ((p.max_inventory + inv) / p.max_inventory))
      else some ask := rfl

lemma floor_none (ms mid b : ℚ) :
    applyMinSpreadFloor ms mid b none = (b, none) := rfl

lemma floor_some (ms mid b a : ℚ) :
    applyMinSpreadFloor ms mid b (some a) =
      if 0 < b ∧ 0 < a then
        if a - b < ms then (mid - ms / 2, some (mid + ms / 2)) else (b, some a)
      else (b, some a) := rfl

lemma calcQuotes_of_ne (p : MMParams) (L inv el : ℚ) (book : OrderBook)
    (h : getMidPrice book ≠ 0) :
    calculateOptimalQuotes p L inv el book =
      (fun r2 => roundQuotes (decimalsFor (getMidPrice book)) r2.1 r2.2)
        ((fun r1 =>
            applyMinSpreadFloor (getMidPrice book * p.min_spread_pct)
              (getMidPrice book) r1.1 r1.2)
          (applyInventoryConstraints p inv book
            (getMidPrice book -
              optimalBidSpread p L inv (max (1/1000) (p.T - el)) p.sigma)
            (getMidPrice book +
              optimalAskSpread p L inv (max (1/1000) (p.T - el)) p.sigma))) := by
  simp only [calculateOptimalQuotes]
  rw [if_neg h]

/-- If the constrained bid is the sentinel `0`, neither the floor nor the
rounding stage changes it. -/
lemma pipeline_bid_zero (d : ℕ) (ms mid b : ℚ) (a? : Option ℚ) (h : b = 0) :
    (roundQuotes d (applyMinSpreadFloor ms mid b a?).1
      (applyMinSpreadFloor ms mid b a?).2).1 = b := by
  subst h
  cases a? with
  | none => simp [floor_none, roundQuotes]
  | some a =>
      rw [floor_some]
      have hg : ¬((0:ℚ) < 0 ∧ 0 < a) := by simp
      rw [if_neg hg]
      simp [roundQuotes]

/-- If the constrained ask is the infinity sentinel, neither the floor
nor the rounding stage changes it. -/
lemma pipeline_ask_none (d : ℕ) (ms mid b : ℚ) :
    (roundQuotes d (applyMinSpreadFloor ms mid b none).1
      (applyMinSpreadFloor ms mid b none).2).2 = none := by
  simp [floor_none, roundQuotes]

/-! ## Claim C3 -/

/-- Book whose best bid is 99 and best ask 101, hence mid price 100. -/
def bookMid100 : OrderBook := { bids := [(99, 1)], asks := [(101, 1)] }

lemma bookMid100_mid : getMidPrice bookMid100 = 100 := by
  norm_num [getMidPrice, bookMid100, bestBidPrice, bestAskPrice, maxKeyAux, minKeyAux]

/-- Counterexample to claim C3: with `max_inventory = 100`,
`inventory = 60`, mid 100 and raw bid 99, the claim predicts
`100 - ((100-60)/100) * (100-99) = 99.6`, but the code DIVIDES the
distance from mid by the factor and outputs `100 - 1/0.4 = 97.5`. -/
theorem spec2_C3_cex :
    (applyInventoryConstraints pDefault 60 bookMid100 99 101).1 = 195/2 ∧
      (applyInventoryConstraints pDefault 60 bookMid100 99 101).1 ≠
        100 - (100 - 60) / 100 * (100 - 99) := by
  have h : (applyInventoryConstraints pDefault 60 bookMid100 99 101).1 = 195/2 := by
    rw [aic_fst, bookMid100_mid]
    norm_num [pDefault]
  exact ⟨h, by rw [h]; norm_num⟩

/-- Claim C3 as amended: in the band
`0.5 * max_inventory <= inventory < 0.8 * max_inventory` the code moves
the bid AWAY from mid, multiplying its distance from mid by
`max_inventory / (max_inventory - inventory)` (the reciprocal of the
claimed factor); symmetrically for the ask in the short band. -/
theorem spec2_C3 (p : MMParams) (book : OrderBook) (inv bid ask : ℚ)
    (hM : 0 < p.max_inventory) :
    (p.max_inventory * (1/2) ≤ inv → inv < p.max_inventory * (8/10) →
      (applyInventoryConstraints p inv book bid ask).1 =
        getMidPrice book - (getMidPrice book - bid) *
          (p.max_inventory / (p.max_inventory - inv))) ∧
    (-p.max_inventory * (8/10) < inv → inv ≤ -p.max_inventory * (1/2) →
      (applyInventoryConstraints p inv book bid ask).2 =
        some (getMidPrice book + (ask - getMidPrice book) *
          (p.max_inventory / (p.max_inventory + inv)))) := by
  constructor
  · intro h1 h2
    rw [aic_fst, if_neg (not_le.2 h2), if_pos h1]
    have hMi : p.max_inventory - inv ≠ 0 := by nlinarith
    have hM0 : p.max_inventory ≠ 0 := ne_of_gt hM
    field_simp
  · intro h1 h2
    rw [aic_snd, if_neg (not_le.2 h1), if_pos h2]
    have hMi : p.max_inventory + inv ≠ 0 := by nlinarith
    have hM0 : p.max_inventory ≠ 0 := ne_of_gt hM
    field_simp

/-- Witness for C3 at `max_inventory = 100`, `inventory = 60`, mid 100,
raw bid 99: the code outputs `100 - (100-99) * (100/40)`. -/
theorem spec2_C3_witness :
    (applyInventoryConstraints pDefault 60 bookMid100 99 101).1 =
      getMidPrice bookMid100 - (getMidPrice bookMid100 - 99) *
        (pDefault.max_inventory / (pDefault.max_inventory - 60)) :=
  (spec2_C3 pDefault bookMid100 60 99 101 (by norm_num [pDefault])).1
    (by norm_num [pDefault]) (by norm_num [pDefault])

/-! ## Claim C4 -/

/-- Claim C4: with a positive mid price, inventory at or above
`0.8 * max_inventory` forces the bid output of the whole quote
computation to the sentinel `0`, whatever the spreads; symmetrically,
inventory at or below `-0.8 * max_inventory` forces the ask output to
the infinity sentinel. -/
theorem spec2_C4 (p : MMParams) (L inv el : ℚ) (book : OrderBook)
    (hmid : 0 < getMidPrice book) :
    (p.max_inventory * (8/10) ≤ inv →
      (calculateOptimalQuotes p L inv el book).1 = 0) ∧
    (inv ≤ -p.max_inventory * (8/10) →
      (calculateOptimalQuotes p L inv el book).2 = none) := by
  have hne : getMidPrice book ≠ 0 := ne_of_gt hmid
  rw [calcQuotes_of_ne p L inv el book hne]
  constructor
  · intro h
    have hb : (applyInventoryConstraints p inv book
        (getMidPrice book - optimalBidSpread p L inv (max (1/1000) (p.T - el)) p.sigma)
        (getMidPrice book + optimalAskSpread p L inv (max (1/1000) (p.T - el)) p.sigma)).1
        = 0 := by
      rw [aic_fst, if_pos h]
    exact (by
      simp only []
      rw [show (applyInventoryConstraints p inv book
        (getMidPrice book - optimalBidSpread p L inv (max (1/1000) (p.T - el)) p.sigma)
        (getMidPrice book + optimalAskSpread p L inv (max (1/1000) (p.T - el)) p.sigma)).1
        = 0 from hb]
      exact pipeline_bid_zero _ _ _ _ _ rfl)
  · intro h
    have ha : (applyInventoryConstraints p inv book
        (getMidPrice book - optimalBidSpread p L inv (max (1/1000) (p.T - el)) p.sigma)
        (getMidPrice book + optimalAskSpread p L inv (max (1/1000) (p.T - el)) p.sigma)).2
        = none := by
      rw [aic_snd, if_pos h]
    simp only []
    rw [ha]
    exact pipeline_ask_none _ _ _ _

/-- Witness for C4: `max_inventory = 100`, `inventory = 85`, mid 100. -/
theorem spec2_C4_witness :
    (calculateOptimalQuotes pDefault 1 85 0 bookMid100).1 = 0 :=
  (spec2_C4 pDefault 1 85 0 bookMid100
      (by rw [bookMid100_mid]; norm_num)).1 (by norm_num [pDefault])

/-! ## Claim C9 -/

/-- Claim C9: with an empty (or one-sided) book, the mid price is 0, the
best bid/ask pair is `(0, 0)`, and the quote computation short-circuits
to the sentinel pair without touching the spread formulas. -/
theorem spec2_C9 (book : OrderBook) (h : book.bids = [] ∨ book.asks = []) :
    getMidPrice book = 0 ∧ getBestBidAsk book = (0, 0) ∧
      ∀ (p : MMParams) (L inv el : ℚ),
        calculateOptimalQuotes p L inv el book = (0, some 0) := by
  have h0 : getMidPrice book = 0 := by rw [getMidPrice, if_pos h]
  refine ⟨h0, by rw [getBestBidAsk, if_pos h], fun p L inv el => ?_⟩
  simp only [calculateOptimalQuotes]
  rw [if_pos h0]

/-- Witness for C9 at the fully empty book. -/
theorem spec2_C9_witness :
    getMidPrice { bids := [], asks := [] } = 0 ∧
      getBestBidAsk { bids := [], asks := [] } = (0, 0) ∧
      ∀ (p : MMParams) (L inv el : ℚ),
        calculateOptimalQuotes p L inv el { bids := [], asks := [] } = (0, some 0) :=
  spec2_C9 { bids := [], asks := [] } (Or.inl rfl)

/-! ## Claim C5 -/

/-- Book whose best bid is 0.4 and best ask 0.6, hence mid price 0.5. -/
def bookHalf : OrderBook := { bids := [(2/5, 1)], asks := [(3/5, 1)] }

lemma bookHalf_mid : getMidPrice bookHalf = 1/2 := by
  norm_num [getMidPrice, bookHalf, bestBidPrice, bestAskPrice, maxKeyAux, minKeyAux]

/-- Claim C5: with the default configuration (`gamma = 0.1`, `k = 1.5`,
`sigma = 0.3`, `remaining_time = 1`), zero inventory and mid price 0.5,
the raw bid spread `9/2000 + L` (with `L` the log constant, about
0.6454; `logTerm_default_bounds` gives `L >= 5/8`) exceeds the mid
price, and `calculate_optimal_quotes` returns the raw, unrounded,
strictly negative bid `1/2 - (9/2000 + L)`: the floor and rounding
stages only run for a positive bid. -/
theorem spec2_C5 (L : ℚ) (hL : 5/8 ≤ L) :
    (calculateOptimalQuotes pDefault L 0 0 bookHalf).1 = 1/2 - (9/2000 + L) ∧
      (calculateOptimalQuotes pDefault L 0 0 bookHalf).1 < 0 := by
  have hmidv : getMidPrice bookHalf = 1/2 := bookHalf_mid
  have hne : getMidPrice bookHalf ≠ 0 := by rw [hmidv]; norm_num
  have hrt : max (1/1000 : ℚ) (pDefault.T - 0) = 1 := by
    rw [max_def]; norm_num [pDefault]
  have hbs : optimalBidSpread pDefault L 0 1 pDefault.sigma = 9/2000 + L := by
    norm_num [optimalBidSpread, pDefault]
  have has : optimalAskSpread pDefault L 0 1 pDefault.sigma = 9/2000 + L := by
    norm_num [optimalAskSpread, pDefault]
  have hbneg : (1:ℚ)/2 - (9/2000 + L) < 0 := by linarith
  have haic : applyInventoryConstraints pDefault 0 bookHalf
      (1/2 - (9/2000 + L)) (1/2 + (9/2000 + L)) =
      (1/2 - (9/2000 + L), some (1/2 + (9/2000 + L))) := by
    have h1 : (applyInventoryConstraints pDefault 0 bookHalf
        (1/2 - (9/2000 + L)) (1/2 + (9/2000 + L))).1 = 1/2 - (9/2000 + L) := by
      rw [aic_fst]
      norm_num [pDefault]
    have h2 : (applyInventoryConstraints pDefault 0 bookHalf
        (1/2 - (9/2000 + L)) (1/2 + (9/2000 + L))).2 =
        some (1/2 + (9/2000 + L)) := by
      rw [aic_snd]
      norm_num [pDefault]
    exact Prod.ext h1 h2
  have hout : (calculateOptimalQuotes pDefault L 0 0 bookHalf).1 =
      1/2 - (9/2000 + L) := by
    rw [calcQuotes_of_ne pDefault L 0 0 bookHalf hne]
    simp only [hmidv, hrt, hbs, has]
    rw [haic]
    simp only []
    rw [floor_some]
    have hg : ¬((0:ℚ) < 1/2 - (9/2000 + L) ∧ (0:ℚ) < 1/2 + (9/2000 + L)) := by
      intro hc
      exact absurd hc.1 (not_lt.2 (le_of_lt hbneg))
    rw [if_neg hg]
    simp only [roundQuotes]
    rw [if_neg (not_lt.2 (le_of_lt hbneg))]
  exact ⟨hout, by rw [hout]; exact hbneg⟩

/-- Witness for C5 at `L = 2/3` (inside the bracket established by
`logTerm_default_bounds`). -/
theorem spec2_C5_witness :
    (calculateOptimalQuotes pDefault (2/3) 0 0 bookHalf).1 < 0 :=
  (spec2_C5 (2/3) (by norm_num)).2

/-! ## Claim C2: lemmas -/

/-- For a short position the raw ask spread is positive. -/
lemma askSpread_pos_of_short (p : MMParams) (L inv t : ℚ)
    (hgamma : 0 < p.gamma) (hsigma : 0 < p.sigma) (ht : 0 < t) (hL : 0 < L)
    (hinv : inv ≤ 0) : 0 < optimalAskSpread p L inv t p.sigma := by
  have hprod : 0 < p.gamma * p.sigma ^ 2 * t :=
    mul_pos (mul_pos hgamma (pow_pos hsigma 2)) ht
  unfold optimalAskSpread
  nlinarith

/-- With a sane configuration (positive `gamma`, `sigma`, log constant
and `max_inventory`) and a positive mid price, whenever the constrained
bid is positive the constrained ask (if finite) is positive as well, so
the guard of the minimum-spread floor cannot be defeated by a
non-positive ask. -/
lemma constrained_ask_pos (p : MMParams) (L inv t : ℚ) (book : OrderBook) (a : ℚ)
    (hgamma : 0 < p.gamma) (hsigma : 0 < p.sigma) (hL : 0 < L)
    (hM : 0 < p.max_inventory) (ht : 0 < t) (hmid0 : 0 < getMidPrice book)
    (hb : 0 < (applyInventoryConstraints p inv book
        (getMidPrice book - optimalBidSpread p L inv t p.sigma)
        (getMidPrice book + optimalAskSpread p L inv t p.sigma)).1)
    (ha : (applyInventoryConstraints p inv book
        (getMidPrice book - optimalBidSpread p L inv t p.sigma)
        (getMidPrice book + optimalAskSpread p L inv t p.sigma)).2 = some a) :
    0 < a := by
  have hprod : 0 < p.gamma * p.sigma ^ 2 * t :=
    mul_pos (mul_pos hgamma (pow_pos hsigma 2)) ht
  rw [aic_fst] at hb
  rw [aic_snd] at ha
  set mid := getMidPrice book with hmiddef
  set bs := optimalBidSpread p L inv t p.sigma with hbsdef
  set as := optimalAskSpread p L inv t p.sigma with hasdef
  have hsum : bs + as = p.gamma * p.sigma ^ 2 * t + 2 * L := by
    rw [hbsdef, hasdef]; exact spread_sum p L inv t p.sigma
  set M := p.max_inventory with hMdef
  split_ifs at ha with h3 h4
  · -- short band: the ask is scaled away from mid and stays above it
    have ha2 : mid + (mid + as - mid) / ((M + inv) / M) = a := Option.some_inj.1 ha
    have hinv0 : inv ≤ 0 := by nlinarith
    have haspos : 0 < as := by
      rw [hasdef]
      exact askSpread_pos_of_short p L inv t hgamma hsigma ht hL hinv0
    have hMi : 0 < M + inv := by
      have := not_le.1 h3
      nlinarith
    have hg : 0 < (M + inv) / M := div_pos hMi hM
    have hq : 0 < (mid + as - mid) / ((M + inv) / M) := by
      apply div_pos _ hg
      linarith
    linarith [ha2]
  · -- ask kept: use the positivity of the constrained bid
    have ha2 : mid + as = a := Option.some_inj.1 ha
    split_ifs at hb with h1 h2
    · exact absurd hb (lt_irrefl 0)
    · -- long band: the bid was scaled by the reciprocal factor
      have hfd : 0 < M - inv := by
        have := not_le.1 h1
        nlinarith
      have hf : 0 < (M - inv) / M := div_pos hfd hM
      have hb2 : 0 < mid - bs / ((M - inv) / M) := by
        have he : mid - (mid - bs) = bs := by ring
        rw [he] at hb
        exact hb
      have hb3 : bs < mid * ((M - inv) / M) :=
        (div_lt_iff hf).1 (by linarith)
      have hfhalf : (M - inv) / M ≤ 1/2 := by
        rw [div_le_iff hM]; linarith
      have hmidf : mid * ((M - inv) / M) ≤ mid * (1/2) :=
        mul_le_mul_of_nonneg_left hfhalf (le_of_lt hmid0)
      by_contra hc
      push_neg at hc
      linarith
    · -- bid kept
      have hb2 : bs < mid := by linarith [sub_pos.1 hb]
      by_contra hc
      push_neg at hc
      linarith

/-- Lower bound on the spread produced by the floor and rounding stages:
if the final bid is positive and the final ask is `some a`, then
`a - final_bid` is at least the floor less one grid unit `1 / 10 ^ d`
(each of the two roundings moves its price by at most half a grid
unit).  `hpos` carries the semantic fact that a positive constrained
bid forces a positive constrained ask. -/
lemma floorRound_lb (d : ℕ) (ms mid b1 a1 a : ℚ)
    (hpos : 0 < b1 → 0 < a1)
    (h2 : (roundQuotes d (applyMinSpreadFloor ms mid b1 (some a1)).1
      (applyMinSpreadFloor ms mid b1 (some a1)).2).2 = some a)
    (hb : 0 < (roundQuotes d (applyMinSpreadFloor ms mid b1 (some a1)).1
      (applyMinSpreadFloor ms mid b1 (some a1)).2).1) :
    ms - 1 / 10 ^ d ≤ a -
      (roundQuotes d (applyMinSpreadFloor ms mid b1 (some a1)).1
        (applyMinSpreadFloor ms mid b1 (some a1)).2).1 := by
  have hgrid : (1 : ℚ) / 10 ^ d = 2 * (1/2 / 10 ^ d) := by ring
  by_cases hb1 : 0 < b1
  · have ha1 : 0 < a1 := hpos hb1
    rw [floor_some, if_pos ⟨hb1, ha1⟩] at h2 hb ⊢
    by_cases hlt : a1 - b1 < ms
    · rw [if_pos hlt] at h2 hb ⊢
      simp only [roundQuotes, Option.map_some'] at h2 hb ⊢
      rw [Option.some_inj] at h2
      have hlo := le_roundDec (mid + ms / 2) d
      have hup := roundDec_le (mid - ms / 2) d
      by_cases hx : 0 < mid - ms / 2
      · rw [if_pos hx] at hb ⊢
        linarith [h2 ▸ hlo]
      · rw [if_neg hx] at hb ⊢
        have : (0:ℚ) ≤ 1/2 / 10 ^ d := by positivity
        linarith [h2 ▸ hlo]
    · rw [if_neg hlt] at h2 hb ⊢
      push_neg at hlt
      simp only [roundQuotes, Option.map_some'] at h2 hb ⊢
      rw [Option.some_inj] at h2
      rw [if_pos hb1] at hb ⊢
      have hlo := le_roundDec a1 d
      have hup := roundDec_le b1 d
      linarith [h2 ▸ hlo]
  · rw [floor_some, if_neg (fun hc => hb1 hc.1)] at hb
    simp only [roundQuotes] at hb
    rw [if_neg hb1] at hb
    exact absurd hb hb1

/-! ## Claim C2: theorem, counterexample and witness -/

/-- Configuration for the recentering scenario: with the fixed values
below and inventory `0.5` the raw quotes are `bid = 99.96`,
`ask = 100.02` around mid 100. -/
def pScen2 : MMParams :=
  { sigma := 1, gamma := 1/10, k := 3/2, c := 1, T := 1/5,
    max_inventory := 100, order_size := 1/100, min_spread_pct := 1/1000 }

/-- Book with best bid 99.9 and best ask 100.1, hence mid price 100. -/
def bookScen2 : OrderBook := { bids := [(999/10, 1)], asks := [(1001/10, 1)] }

lemma bookScen2_mid : getMidPrice bookScen2 = 100 := by
  norm_num [getMidPrice, bookScen2, bestBidPrice, bestAskPrice, maxKeyAux, minKeyAux]

/-- Claim C2 as amended.  First part: for every sane configuration
(positive `gamma`, `sigma`, log constant `L`, `max_inventory`), positive
mid price, finite ask output and positive bid output, the final spread
is at least `mid * min_spread_pct - 1 / 10 ^ d` where `d` is the
rounding precision for that mid price — the rounding stage runs after
the floor and can consume up to one full grid unit `1 / 10 ^ d`, which
is why the floor only holds up to that grid unit and not up to a mere
float tolerance.  Second part: the concrete recentering scenario of the
claim (mid 100, floor 0.1, raw bid 99.96, raw ask 100.02 recentred to
99.95 / 100.05) holds exactly. -/
theorem spec2_C2 :
    (∀ (p : MMParams) (L inv el a : ℚ) (book : OrderBook),
      0 < p.gamma → 0 < p.sigma → 0 < L → 0 < p.max_inventory →
      0 < getMidPrice book →
      (calculateOptimalQuotes p L inv el book).2 = some a →
      0 < (calculateOptimalQuotes p L inv el book).1 →
      getMidPrice book * p.min_spread_pct - 1 / 10 ^ decimalsFor (getMidPrice book)
        ≤ a - (calculateOptimalQuotes p L inv el book).1) ∧
    calculateOptimalQuotes pScen2 (1/50) (1/2) 0 bookScen2 =
      (1999/20, some (2001/20)) := by
  constructor
  · intro p L inv el a book hgamma hsigma hL hM hmid ha hb
    have hne : getMidPrice book ≠ 0 := ne_of_gt hmid
    have ht : 0 < max (1/1000 : ℚ) (p.T - el) :=
      lt_of_lt_of_le (by norm_num) (le_max_left _ _)
    rw [calcQuotes_of_ne p L inv el book hne] at ha hb ⊢
    simp only [] at ha hb ⊢
    obtain ⟨b1, a1?, hr⟩ : ∃ b1 a1?, applyInventoryConstraints p inv book
        (getMidPrice book - optimalBidSpread p L inv (max (1/1000) (p.T - el)) p.sigma)
        (getMidPrice book + optimalAskSpread p L inv (max (1/1000) (p.T - el)) p.sigma)
        = (b1, a1?) := ⟨_, _, rfl⟩
    rw [hr] at ha hb ⊢
    cases a1? with
    | none =>
        simp [floor_none, roundQuotes] at ha
    | some a1 =>
        dsimp only [] at ha hb ⊢
        refine floorRound_lb (decimalsFor (getMidPrice book)) _ _ b1 a1 a ?_ ha hb
        intro hb1
        exact constrained_ask_pos p L inv (max (1/1000) (p.T - el)) book a1
          hgamma hsigma hL hM ht hmid
          (by rw [hr]; exact hb1) (by rw [hr])
  · have h1 : getMidPrice bookScen2 = 100 := bookScen2_mid
    have hrt : max (1/1000 : ℚ) (pScen2.T - 0) = 1/5 := by
      rw [max_def]; norm_num [pScen2]
    have h2 : optimalBidSpread pScen2 (1/50) (1/2) (1/5) pScen2.sigma = 1/25 := by
      norm_num [optimalBidSpread, pScen2]
    have h3 : optimalAskSpread pScen2 (1/50) (1/2) (1/5) pScen2.sigma = 1/50 := by
      norm_num [optimalAskSpread, pScen2]
    have h4 : applyInventoryConstraints pScen2 (1/2) bookScen2 (2499/25) (5001/50)
        = (2499/25, some (5001/50)) := by
      refine Prod.ext ?_ ?_
      · rw [aic_fst]; norm_num [pScen2]
      · rw [aic_snd]; norm_num [pScen2]
    have h5 : applyMinSpreadFloor (100 * pScen2.min_spread_pct) 100 (2499/25)
        (some (5001/50)) = (1999/20, some (2001/20)) := by
      rw [floor_some]; norm_num [pScen2]
    have h6 : roundQuotes (decimalsFor 100) (1999/20) (some (2001/20))
        = (1999/20, some (2001/20)) := by
      norm_num [roundQuotes, decimalsFor, roundDec, roundHalfEven, Option.map]
    rw [calculateOptimalQuotes]
    simp only [h1, hrt, h2, h3]
    norm_num [h4, h5, h6]

/-- Configuration for the counterexample: `min_spread_pct` is tuned so
that the floor is `0.1098` at mid `100.05` while the recentred quotes
land just beyond half a cent, so that rounding takes almost a full cent
out of the spread.  (`L = 0.01` stands for the log constant of this
configuration; its exact value is irrelevant to the property.) -/
def pCex2 : MMParams :=
  { sigma := 1, gamma := 1/10, k := 3/2, c := 1, T := 1/10,
    max_inventory := 100, order_size := 1/100, min_spread_pct := 183/166750 }

/-- Book with best bid 100 and best ask 100.1, hence mid price 100.05. -/
def bookCex2 : OrderBook := { bids := [(100, 1)], asks := [(1001/10, 1)] }

lemma bookCex2_mid : getMidPrice bookCex2 = 2001/20 := by
  norm_num [getMidPrice, bookCex2, bestBidPrice, bestAskPrice, maxKeyAux, minKeyAux]

lemma cex2_out : calculateOptimalQuotes pCex2 (1/100) 0 0 bookCex2
    = (100, some (1001/10)) := by
  have h1 : getMidPrice bookCex2 = 2001/20 := bookCex2_mid
  have hrt : max (1/1000 : ℚ) (pCex2.T - 0) = 1/10 := by
    rw [max_def]; norm_num [pCex2]
  have h2 : optimalBidSpread pCex2 (1/100) 0 (1/10) pCex2.sigma = 3/200 := by
    norm_num [optimalBidSpread, pCex2]
  have h3 : optimalAskSpread pCex2 (1/100) 0 (1/10) pCex2.sigma = 3/200 := by
    norm_num [optimalAskSpread, pCex2]
  have h4 : applyInventoryConstraints pCex2 0 bookCex2 (20007/200) (20013/200)
      = (20007/200, some (20013/200)) := by
    refine Prod.ext ?_ ?_
    · rw [aic_fst]; norm_num [pCex2]
    · rw [aic_snd]; norm_num [pCex2]
  have h5 : applyMinSpreadFloor (2001/20 * pCex2.min_spread_pct) (2001/20)
      (20007/200) (some (20013/200))
      = (999951/10000, some (1001049/10000)) := by
    rw [floor_some]; norm_num [pCex2]
  have h6 : roundQuotes (decimalsFor (2001/20)) (999951/10000)
      (some (1001049/10000)) = (100, some (1001/10)) := by
    norm_num [roundQuotes, decimalsFor, roundDec, roundHalfEven, Option.map]
  rw [calculateOptimalQuotes]
  simp only [h1, hrt, h2, h3]
  norm_num [h4, h5, h6]

/-- Counterexample to claim C2 as stated: at mid `100.05` with floor
`0.1098`, both outputs are non-sentinel (`bid = 100 > 0`, finite
`ask = 100.10`) yet the final spread `0.10` falls short of the floor by
`0.0098` — more than `1/200 = 0.005`, which no tiny float tolerance
covers.  Rounding after the floor produced the shortfall. -/
theorem spec2_C2_cex :
    0 < getMidPrice bookCex2 ∧
    0 < (calculateOptimalQuotes pCex2 (1/100) 0 0 bookCex2).1 ∧
    (calculateOptimalQuotes pCex2 (1/100) 0 0 bookCex2).2 = some (1001/10) ∧
    (1001/10 : ℚ) - (calculateOptimalQuotes pCex2 (1/100) 0 0 bookCex2).1 <
      getMidPrice bookCex2 * pCex2.min_spread_pct - 1/200 := by
  refine ⟨by rw [bookCex2_mid]; norm_num, by rw [cex2_out]; norm_num,
    by rw [cex2_out], ?_⟩
  rw [cex2_out, bookCex2_mid]
  norm_num [pCex2]

/-- Witness for the amended C2 at the recentering scenario. -/
theorem spec2_C2_witness :
    getMidPrice bookScen2 * pScen2.min_spread_pct -
        1 / 10 ^ decimalsFor (getMidPrice bookScen2)
      ≤ (2001/20 : ℚ) - (calculateOptimalQuotes pScen2 (1/50) (1/2) 0 bookScen2).1 :=
  spec2_C2.1 pScen2 (1/50) (1/2) 0 (2001/20) bookScen2
    (by norm_num [pScen2]) (by norm_num [pScen2]) (by norm_num)
    (by norm_num [pScen2]) (by rw [bookScen2_mid]; norm_num)
    (by rw [spec2_C2.2]) (by rw [spec2_C2.2]; norm_num)

/-! ## Claim C10: lookup characterization of the book update -/

lemma lookup_eraseLevel (m : BookSide) (p q : ℚ) :
    lookupLevel (eraseLevel m p) q = if q = p then none else lookupLevel m q := by
  induction m with
  | nil => simp [eraseLevel, lookupLevel]
  | cons e rest ih =>
      simp only [eraseLevel, lookupLevel]
      by_cases hep : e.1 = p
      · subst hep
        by_cases hqp : q = e.1
        · subst hqp
          simp [ih]
        · have h2 : ¬(e.1 = q) := fun h => hqp h.symm
          simp [hqp, h2, ih, lookupLevel]
      · by_cases hqp : q = p
        · subst hqp
          have h2 : ¬(e.1 = q) := hep
          simp [hep, h2, ih, lookupLevel]
        · by_cases heq : e.1 = q
          · simp [hep, heq, hqp, lookupLevel]
          · simp [hep, heq, hqp, ih, lookupLevel]

lemma lookup_append_none (xs ys : BookSide) (q : ℚ)
    (h : lookupLevel xs q = none) :
    lookupLevel (xs ++ ys) q = lookupLevel ys q := by
  induction xs with
  | nil => rfl
  | cons e rest ih =>
      simp only [lookupLevel] at h
      by_cases he : e.1 = q
      · rw [if_pos he] at h; exact absurd h (by simp)
      · rw [if_neg he] at h
        simp only [List.cons_append, lookupLevel, if_neg he]
        exact ih h

lemma lookup_append_some (xs ys : BookSide) (q s2 : ℚ)
    (h : lookupLevel xs q = some s2) :
    lookupLevel (xs ++ ys) q = some s2 := by
  induction xs with
  | nil => simp [lookupLevel] at h
  | cons e rest ih =>
      simp only [lookupLevel] at h
      simp only [List.cons_append, lookupLevel]
      by_cases he : e.1 = q
      · rw [if_pos he] at h
        rw [if_pos he]
        exact h
      · rw [if_neg he] at h
        rw [if_neg he]
        exact ih h

lemma lookup_setLevel (m : BookSide) (p s q : ℚ) :
    lookupLevel (setLevel m p s) q = if q = p then some s else lookupLevel m q := by
  by_cases hqp : q = p
  · subst hqp
    rw [if_pos rfl, setLevel,
      lookup_append_none _ _ _ (by rw [lookup_eraseLevel]; simp)]
    simp [lookupLevel]
  · rw [if_neg hqp, setLevel]
    have herase : lookupLevel (eraseLevel m p) q = lookupLevel m q := by
      rw [lookup_eraseLevel, if_neg hqp]
    cases hcase : lookupLevel (eraseLevel m p) q with
    | none =>
        rw [lookup_append_none _ _ _ hcase]
        simp only [lookupLevel]
        rw [if_neg (fun h => hqp h.symm), ← herase, hcase]
    | some s2 =>
        rw [← herase, lookup_append_some _ _ _ s2 hcase, hcase]

lemma lookup_levelStep (m : BookSide) (e : ℚ × ℚ) (q : ℚ) :
    lookupLevel (levelStep m e) q =
      if q = e.1 then (if 0 < e.2 then some e.2 else none)
      else lookupLevel m q := by
  rw [levelStep]
  by_cases hs : 0 < e.2
  · rw [if_pos hs, lookup_setLevel]
    simp [hs]
  · rw [if_neg hs, lookup_eraseLevel]
    simp [hs]

lemma lookup_foldl_congr (es : List (ℚ × ℚ)) :
    ∀ m1 m2 : BookSide, (∀ q, lookupLevel m1 q = lookupLevel m2 q) →
      ∀ q, lookupLevel (es.foldl levelStep m1) q =
        lookupLevel (es.foldl levelStep m2) q := by
  induction es with
  | nil => intro m1 m2 h q; exact h q
  | cons e rest ih =>
      intro m1 m2 h q
      simp only [List.foldl_cons]
      refine ih _ _ (fun r => ?_) q
      rw [lookup_levelStep, lookup_levelStep]
      split_ifs
      · rfl
      · rfl
      · exact h r

lemma lookup_foldl_not_mem (es : List (ℚ × ℚ)) :
    ∀ (m : BookSide) (q : ℚ), q ∉ es.map Prod.fst →
      lookupLevel (es.foldl levelStep m) q = lookupLevel m q := by
  induction es with
  | nil => intro m q _; rfl
  | cons e rest ih =>
      intro m q hq
      simp only [List.map_cons, List.mem_cons] at hq
      push_neg at hq
      simp only [List.foldl_cons]
      rw [ih _ q hq.2, lookup_levelStep, if_neg hq.1]

lemma lookup_foldl_mem (es : List (ℚ × ℚ)) :
    ∀ (q : ℚ), q ∈ es.map Prod.fst → ∀ m1 m2 : BookSide,
      lookupLevel (es.foldl levelStep m1) q =
        lookupLevel (es.foldl levelStep m2) q := by
  induction es with
  | nil => intro q hq; simp at hq
  | cons e rest ih =>
      intro q hq m1 m2
      simp only [List.foldl_cons]
      by_cases hr : q ∈ rest.map Prod.fst
      · exact ih q hr _ _
      · have hqe : q = e.1 := by
          simp only [List.map_cons, List.mem_cons] at hq
          tauto
        rw [lookup_foldl_not_mem rest _ q hr, lookup_foldl_not_mem rest _ q hr,
          lookup_levelStep, lookup_levelStep, if_pos hqe, if_pos hqe]

/-- Applying the same level list twice leaves the lookup function of the
book side unchanged: each key in the list gets the value of its last
entry either way, and other keys are untouched. -/
lemma lookup_foldl_idem (es : List (ℚ × ℚ)) (m : BookSide) (q : ℚ) :
    lookupLevel (es.foldl levelStep (es.foldl levelStep m)) q =
      lookupLevel (es.foldl levelStep m) q := by
  by_cases hq : q ∈ es.map Prod.fst
  · exact lookup_foldl_mem es q hq _ _
  · rw [lookup_foldl_not_mem es _ q hq]

lemma mem_keys_iff_lookup (m : BookSide) (q : ℚ) :
    q ∈ m.map Prod.fst ↔ lookupLevel m q ≠ none := by
  induction m with
  | nil => simp [lookupLevel]
  | cons e rest ih =>
      simp only [List.map_cons, List.mem_cons, lookupLevel]
      by_cases h : e.1 = q
      · simp [h]
      · have h2 : ¬(q = e.1) := fun hh => h hh.symm
        simp [h, h2, ih]

lemma nil_iff_of_lookup_eq (m1 m2 : BookSide)
    (h : ∀ q, lookupLevel m1 q = lookupLevel m2 q) : m1 = [] ↔ m2 = [] := by
  constructor
  · intro hnil
    cases hm : m2 with
    | nil => rfl
    | cons e rest =>
        exfalso
        have := h e.1
        rw [hnil, hm] at this
        simp [lookupLevel] at this
  · intro hnil
    cases hm : m1 with
    | nil => rfl
    | cons e rest =>
        exfalso
        have := h e.1
        rw [hnil, hm] at this
        simp [lookupLevel] at this

/-! ## Claim C10: the best-price folds only depend on the key set -/

lemma le_maxKeyAux (m : BookSide) : ∀ acc : ℚ, acc ≤ maxKeyAux acc m := by
  induction m with
  | nil => intro acc; exact le_refl acc
  | cons e rest ih =>
      intro acc
      simp only [maxKeyAux]
      exact le_trans (le_max_left _ _) (ih _)

lemma mem_le_maxKeyAux (m : BookSide) :
    ∀ (acc q : ℚ), q ∈ m.map Prod.fst → q ≤ maxKeyAux acc m := by
  induction m with
  | nil => intro acc q hq; simp at hq
  | cons e rest ih =>
      intro acc q hq
      simp only [List.map_cons, List.mem_cons] at hq
      simp only [maxKeyAux]
      rcases hq with hq | hq
      · exact hq ▸ le_trans (le_max_right _ _) (le_maxKeyAux rest _)
      · exact ih _ q hq

lemma maxKeyAux_eq_acc_or_mem (m : BookSide) :
    ∀ acc : ℚ, maxKeyAux acc m = acc ∨ maxKeyAux acc m ∈ m.map Prod.fst := by
  induction m with
  | nil => intro acc; left; rfl
  | cons e rest ih =>
      intro acc
      simp only [maxKeyAux, List.map_cons, List.mem_cons]
      rcases ih (max acc e.1) with h | h
      · rcases max_choice acc e.1 with hm | hm
        · left; rw [h, hm]
        · right; left; rw [h, hm]
      · right; right; exact h

lemma minKeyAux_le (m : BookSide) : ∀ acc : ℚ, minKeyAux acc m ≤ acc := by
  induction m with
  | nil => intro acc; exact le_refl acc
  | cons e rest ih =>
      intro acc
      simp only [minKeyAux]
      exact le_trans (ih _) (min_le_left _ _)

lemma minKeyAux_le_mem (m : BookSide) :
    ∀ (acc q : ℚ), q ∈ m.map Prod.fst → minKeyAux acc m ≤ q := by
  induction m with
  | nil => intro acc q hq; simp at hq
  | cons e rest ih =>
      intro acc q hq
      simp only [List.map_cons, List.mem_cons] at hq
      simp only [minKeyAux]
      rcases hq with hq | hq
      · exact hq ▸ le_trans (minKeyAux_le rest _) (min_le_right _ _)
      · exact ih _ q hq

lemma minKeyAux_eq_acc_or_mem (m : BookSide) :
    ∀ acc : ℚ, minKeyAux acc m = acc ∨ minKeyAux acc m ∈ m.map Prod.fst := by
  induction m with
  | nil => intro acc; left; rfl
  | cons e rest ih =>
      intro acc
      simp only [minKeyAux, List.map_cons, List.mem_cons]
      rcases ih (min acc e.1) with h | h
      · rcases min_choice acc e.1 with hm | hm
        · left; rw [h, hm]
        · right; left; rw [h, hm]
      · right; right; exact h

lemma bestBid_mem (m : BookSide) (h : m ≠ []) :
    bestBidPrice m ∈ m.map Prod.fst := by
  cases m with
  | nil => exact absurd rfl h
  | cons e rest =>
      simp only [bestBidPrice, List.map_cons, List.mem_cons]
      rcases maxKeyAux_eq_acc_or_mem rest e.1 with h1 | h1
      · left; exact h1
      · right; exact h1

lemma mem_le_bestBid (m : BookSide) (q : ℚ) (h : q ∈ m.map Prod.fst) :
    q ≤ bestBidPrice m := by
  cases m with
  | nil => simp at h
  | cons e rest =>
      simp only [bestBidPrice]
      simp only [List.map_cons, List.mem_cons] at h
      rcases h with h | h
      · exact h ▸ le_maxKeyAux rest e.1
      · exact mem_le_maxKeyAux rest e.1 q h

lemma bestAsk_mem (m : BookSide) (h : m ≠ []) :
    bestAskPrice m ∈ m.map Prod.fst := by
  cases m with
  | nil => exact absurd rfl h
  | cons e rest =>
      simp only [bestAskPrice, List.map_cons, List.mem_cons]
      rcases minKeyAux_eq_acc_or_mem rest e.1 with h1 | h1
      · left; exact h1
      · right; exact h1

lemma bestAsk_le_mem (m : BookSide) (q : ℚ) (h : q ∈ m.map Prod.fst) :
    bestAskPrice m ≤ q := by
  cases m with
  | nil => simp at h
  | cons e rest =>
      simp only [bestAskPrice]
      simp only [List.map_cons, List.mem_cons] at h
      rcases h with h | h
      · exact h ▸ minKeyAux_le rest e.1
      · exact minKeyAux_le_mem rest e.1 q h

lemma bestBid_eq_of_lookup_eq (m1 m2 : BookSide)
    (h : ∀ q, lookupLevel m1 q = lookupLevel m2 q) (h1 : m1 ≠ []) (h2 : m2 ≠ []) :
    bestBidPrice m1 = bestBidPrice m2 := by
  have hiff : ∀ q, q ∈ m1.map Prod.fst ↔ q ∈ m2.map Prod.fst := fun q => by
    rw [mem_keys_iff_lookup, mem_keys_iff_lookup, h q]
  exact le_antisymm
    (mem_le_bestBid m2 _ ((hiff _).1 (bestBid_mem m1 h1)))
    (mem_le_bestBid m1 _ ((hiff _).2 (bestBid_mem m2 h2)))

lemma bestAsk_eq_of_lookup_eq (m1 m2 : BookSide)
    (h : ∀ q, lookupLevel m1 q = lookupLevel m2 q) (h1 : m1 ≠ []) (h2 : m2 ≠ []) :
    bestAskPrice m1 = bestAskPrice m2 := by
  have hiff : ∀ q, q ∈ m1.map Prod.fst ↔ q ∈ m2.map Prod.fst := fun q => by
    rw [mem_keys_iff_lookup, mem_keys_iff_lookup, h q]
  exact le_antisymm
    (bestAsk_le_mem m1 _ ((hiff _).2 (bestAsk_mem m2 h2)))
    (bestAsk_le_mem m2 _ ((hiff _).1 (bestAsk_mem m1 h1)))

/-- Claim C10: each entry of an update replaces the stored size at its
price (removing the level when the size is not positive), and applying
the same update twice yields the same best bid/ask as applying it
once. -/
theorem spec2_C10 :
    (∀ (m : BookSide) (e : ℚ × ℚ) (q : ℚ),
      lookupLevel (levelStep m e) q =
        if q = e.1 then (if 0 < e.2 then some e.2 else none)
        else lookupLevel m q) ∧
    (∀ (b : OrderBook) (bids asks : List (ℚ × ℚ)),
      getBestBidAsk (updateBook (updateBook b bids asks) bids asks) =
        getBestBidAsk (updateBook b bids asks)) := by
  refine ⟨lookup_levelStep, fun b bids asks => ?_⟩
  have hbidlk : ∀ q, lookupLevel (bids.foldl levelStep (updateBook b bids asks).bids) q
      = lookupLevel (updateBook b bids asks).bids q :=
    fun q => lookup_foldl_idem bids b.bids q
  have hasklk : ∀ q, lookupLevel (asks.foldl levelStep (updateBook b bids asks).asks) q
      = lookupLevel (updateBook b bids asks).asks q :=
    fun q => lookup_foldl_idem asks b.asks q
  have hnb := nil_iff_of_lookup_eq _ _ hbidlk
  have hna := nil_iff_of_lookup_eq _ _ hasklk
  rw [getBestBidAsk, getBestBidAsk]
  by_cases hcond : (updateBook b bids asks).bids = [] ∨ (updateBook b bids asks).asks = []
  · have hcond2 : (updateBook (updateBook b bids asks) bids asks).bids = [] ∨
        (updateBook (updateBook b bids asks) bids asks).asks = [] := by
      rcases hcond with h | h
      · exact Or.inl (hnb.2 h)
      · exact Or.inr (hna.2 h)
    rw [if_pos hcond2, if_pos hcond]
  · push_neg at hcond
    have hcond2 : ¬((updateBook (updateBook b bids asks) bids asks).bids = [] ∨
        (updateBook (updateBook b bids asks) bids asks).asks = []) := by
      rintro (h | h)
      · exact hcond.1 (hnb.1 h)
      · exact hcond.2 (hna.1 h)
    rw [if_neg hcond2, if_neg (by rintro (h | h); exacts [hcond.1 h, hcond.2 h])]
    refine Prod.ext ?_ ?_
    · exact bestBid_eq_of_lookup_eq _ _ hbidlk (fun h => hcond.1 (hnb.1 h)) hcond.1
    · exact bestAsk_eq_of_lookup_eq _ _ hasklk (fun h => hcond.2 (hna.1 h)) hcond.2

end AvBinanceLive
